import Mathlib

/-!
# Verification of the SageMaker customer-churn pipeline notebook

Shallow embedding of `src/sagemaker-pipeline/demo_customer_churn_SM_pipeline.ipynb`.
The notebook builds a declarative pipeline descriptor (parameters, step
descriptors with property references, one condition step) and submits it to an
external orchestration service.  The descriptor data and the concrete demo
pipeline below are translated directly from the notebook cells; the validation,
upsert/start and execution-engine behaviour is not present in the repository
and is modelled from the specification where so marked.
-/

/-- Declared type of a pipeline parameter (`ParameterInteger` / `ParameterString`). -/
inductive ParamType
  | int
  | str
deriving DecidableEq, Repr

/-- A runtime value for a parameter. -/
inductive ParamValue
  | intVal (i : Int)
  | strVal (s : String)
deriving DecidableEq, Repr

/-- A pipeline parameter: name, declared type, default value and (for string
parameters constructed with `enum_values`) an optional enumerated allowed set,
as in notebook cell 12. -/
structure Parameter where
  name : String
  ptype : ParamType
  deflt : ParamValue
  enumValues : Option (List String)
deriving DecidableEq, Repr

/-- A step input is either a literal value, a property reference to another
step's (not yet resolved) output, or a reference to a pipeline parameter. -/
inductive InputVal
  | lit (s : String)
  | ref (step : String) (output : String)
  | param (p : String)
deriving DecidableEq, Repr

/-- Operation kind of a basic (non-condition) step. -/
inductive StepKind
  | callback
  | train
  | process
  | createModel
  | registerModel
deriving DecidableEq, Repr

/-- A basic step descriptor: name, kind, named inputs and declared outputs. -/
structure BasicStep where
  name : String
  kind : StepKind
  inputs : List (String × InputVal)
  outputs : List String
deriving DecidableEq, Repr

/-- One comparison of the condition step: `ConditionGreaterThanOrEqualTo` whose
left side is a `JsonGet` on a property file of a named step and whose right
side is a rational threshold (notebook cell 35). -/
structure CondPredicate where
  leftStep : String
  leftOutput : String
  jsonPath : String
  rhs : ℚ
deriving DecidableEq, Repr

/-- The condition step: name, the list of comparisons (all must hold), and the
`if_steps` / `else_steps` branches. -/
structure ConditionNode where
  name : String
  preds : List CondPredicate
  ifSteps : List BasicStep
  elseSteps : List BasicStep
deriving DecidableEq, Repr

/-- A top-level pipeline step: either a basic step or a condition step. -/
inductive Step
  | basic (s : BasicStep)
  | condStep (c : ConditionNode)
deriving DecidableEq, Repr

/-- A pipeline descriptor: name, parameter list and top-level step list. -/
structure Pipeline where
  name : String
  parameters : List Parameter
  steps : List Step
deriving DecidableEq, Repr

/-- Semantics of `ConditionGreaterThanOrEqualTo`: the resolved left value must be greater
than or equal to the right threshold. -/
def evalPredB (c : CondPredicate) (resolved : ℚ) : Bool :=
  decide (c.rhs ≤ resolved)

/-- All comparisons of a condition step must hold (`conditions=[...]`). -/
def evalCondB (c : ConditionNode) (resolved : ℚ) : Bool :=
  c.preds.all (fun p => evalPredB p resolved)

/-- The branch selected by the condition step at a resolved metric value. -/
def selectBranch (c : ConditionNode) (resolved : ℚ) : List BasicStep :=
  if evalCondB c resolved then c.ifSteps else c.elseSteps

/-! ## The concrete demo pipeline, from the notebook cells

`bucket` resolves to `sagemaker-us-east-1-822507008821` (cell 7 output) and
the S3 prefix is `sagemaker/DEMO-xgboost-customer-churn-connect` (cell 6). -/

/-- The six pipeline parameters of notebook cell 12. -/
def demoParameters : List Parameter :=
  [ { name := "ProcessingInstanceCount", ptype := .int,
      deflt := .intVal 1, enumValues := none },
    { name := "ProcessingInstanceType", ptype := .str,
      deflt := .strVal "ml.m5.xlarge", enumValues := none },
    { name := "TrainingInstanceCount", ptype := .int,
      deflt := .intVal 1, enumValues := none },
    { name := "TrainingInstance", ptype := .str,
      deflt := .strVal "ml.m5.xlarge", enumValues := none },
    { name := "ModelApprovalStatus", ptype := .str,
      deflt := .strVal "Approved",
      enumValues := some ["PendingManualApproval", "Approved"] },
    { name := "ModelOutputUrl", ptype := .str,
      deflt := .strVal "s3://sagemaker-us-east-1-822507008821/sagemaker/DEMO-xgboost-customer-churn-connect/model",
      enumValues := none } ]

/-- Step `step_callback_data` (cell 18): the Glue-preparation callback step with its
four literal inputs and three declared outputs. -/
def stepCallbackData : BasicStep :=
  { name := "GluePrepCallbackStep", kind := .callback,
    inputs :=
      [ ("trainUri", .lit "s3://sagemaker-us-east-1-822507008821/sagemaker/DEMO-xgboost-customer-churn-connect/processed/train/train.csv"),
        ("valUri", .lit "s3://sagemaker-us-east-1-822507008821/sagemaker/DEMO-xgboost-customer-churn-connect/processed/validation/validation.csv"),
        ("testUri", .lit "s3://sagemaker-us-east-1-822507008821/sagemaker/DEMO-xgboost-customer-churn-connect/processed/test/test.csv"),
        ("inputDir", .lit "s3://sagemaker-us-east-1-822507008821/sagemaker/DEMO-xgboost-customer-churn-connect/input/") ],
    outputs := ["trainUri", "valUri", "testUri"] }

/-- Step `step_train` (cell 22): the training step; its `train` and `validation`
channels are property references to the callback step's outputs, and the
estimator configuration of cell 20 references the training parameters.  Its
declared output is the model artifact location exposed through
`properties.ModelArtifacts.S3ModelArtifacts`. -/
def stepTrain : BasicStep :=
  { name := "TrainModel", kind := .train,
    inputs :=
      [ ("train", .ref "GluePrepCallbackStep" "trainUri"),
        ("validation", .ref "GluePrepCallbackStep" "valUri"),
        ("instance_type", .param "TrainingInstance"),
        ("instance_count", .param "TrainingInstanceCount"),
        ("output_path", .param "ModelOutputUrl") ],
    outputs := ["ModelArtifacts.S3ModelArtifacts"] }

/-- Step `step_eval` (cell 27): the evaluation processing step.  Its model input is
a property reference to the training step's artifacts; its test input is the
literal S3 location of the test csv; it declares the `evaluation` output
(carrying the `EvaluationReport` property file). -/
def stepEval : BasicStep :=
  { name := "EvaluateModel", kind := .process,
    inputs :=
      [ ("/opt/ml/processing/model", .ref "TrainModel" "ModelArtifacts.S3ModelArtifacts"),
        ("/opt/ml/processing/test", .lit "s3://sagemaker-us-east-1-822507008821/sagemaker/DEMO-xgboost-customer-churn-connect/processed/test/test.csv"),
        ("instance_type", .param "ProcessingInstanceType") ],
    outputs := ["evaluation"] }

/-- Step `step_create_model` (cell 29): creates a model from the training step's
artifacts; exposes `properties.ModelName`. -/
def stepCreateModel : BasicStep :=
  { name := "CustomerChurnCreateModel", kind := .createModel,
    inputs :=
      [ ("model_data", .ref "TrainModel" "ModelArtifacts.S3ModelArtifacts"),
        ("instance_type", .lit "ml.m5.xlarge") ],
    outputs := ["ModelName"] }

/-- Step `step_register` (cell 31): registers the trained model with the approval
status taken from the `ModelApprovalStatus` parameter. -/
def stepRegister : BasicStep :=
  { name := "RegisterModel", kind := .registerModel,
    inputs :=
      [ ("model_data", .ref "TrainModel" "ModelArtifacts.S3ModelArtifacts"),
        ("model_package_group_name", .lit "CustomerChurnModelPackage"),
        ("approval_status", .param "ModelApprovalStatus"),
        ("model_metrics", .lit "s3://sagemaker-us-east-1-822507008821/sagemaker/DEMO-xgboost-customer-churn-connect/Evaluation/output/") ],
    outputs := [] }

/-- Step `deploy_step` (cell 33): the deployment processing step; its model-name
argument is a property reference to the create-model step. -/
def deployStep : BasicStep :=
  { name := "DeployModel", kind := .process,
    inputs :=
      [ ("--model-name", .ref "CustomerChurnCreateModel" "ModelName"),
        ("--region", .lit "us-east-1"),
        ("--endpoint-instance-type", .lit "ml.m4.xlarge"),
        ("--endpoint-name", .lit "demo-customer-churn-xgboost"),
        ("code", .lit "s3://sagemaker-us-east-1-822507008821/sagemaker/DEMO-xgboost-customer-churn-connect/code/deploy_model.py") ],
    outputs := [] }

/-- Predicate `cond_lte` (cell 35): a `JsonGet` on the `EvaluationReport` property file of
the evaluation step, compared against the threshold `0.95`. -/
def demoCondPred : CondPredicate :=
  { leftStep := "EvaluateModel", leftOutput := "evaluation",
    jsonPath := "binary_classification_metrics.accuracy.value",
    rhs := mkRat 95 100 }

/-- Step `step_cond` (cell 35): the condition step with the create / register /
deploy steps in `if_steps` and an empty `else_steps`. -/
def stepCond : ConditionNode :=
  { name := "CheckEvaluation",
    preds := [demoCondPred],
    ifSteps := [stepCreateModel, stepRegister, deployStep],
    elseSteps := [] }

/-- Object `pipeline` (cell 37): the full demo pipeline descriptor. -/
def demoPipeline : Pipeline :=
  { name := "Demo-customer-churn-pipeline",
    parameters := demoParameters,
    steps := [ .basic stepCallbackData, .basic stepTrain, .basic stepEval,
               .condStep stepCond ] }

/-! ## Names, references and the dependency graph of a descriptor -/

/-- All step names contributed by one top-level step: a basic step contributes
its own name; a condition step contributes its own name and the names of both
branches. -/
def stepNames : Step → List String
  | .basic s => [s.name]
  | .condStep c => c.name :: (c.ifSteps.map (fun s => s.name) ++ c.elseSteps.map (fun s => s.name))

/-- Every step name of the pipeline, across the top-level list and all
conditional branches. -/
def allStepNames (p : Pipeline) : List String :=
  p.steps.flatMap stepNames

/-- The name of a top-level step itself (the condition node counts as a member
of the top-level step list). -/
def headName : Step → String
  | .basic s => s.name
  | .condStep c => c.name

/-- The names of the top-level step list. -/
def topLevelNames (p : Pipeline) : List String :=
  p.steps.map headName

/-- Every basic step of the pipeline: top-level basic steps together with the
steps of both branches of each condition step. -/
def allBasicSteps (p : Pipeline) : List BasicStep :=
  p.steps.flatMap (fun st =>
    match st with
    | .basic s => [s]
    | .condStep c => c.ifSteps ++ c.elseSteps)

/-- The names of all basic steps. -/
def basicNames (p : Pipeline) : List String :=
  (allBasicSteps p).map (fun s => s.name)

/-- All property references of the pipeline, as (step name, output name)
pairs: the `ref` inputs of every basic step together with the `JsonGet`
references of the condition predicates. -/
def allRefs (p : Pipeline) : List (String × String) :=
  (allBasicSteps p).flatMap
      (fun s => s.inputs.filterMap (fun iv =>
        match iv.2 with
        | .ref st out => some (st, out)
        | _ => none))
    ++ p.steps.flatMap (fun st =>
        match st with
        | .basic _ => []
        | .condStep c => c.preds.map (fun pr => (pr.leftStep, pr.leftOutput)))

/-- The names of the (existing) steps a basic step depends on through its
property references. -/
def depNames (p : Pipeline) (s : BasicStep) : List String :=
  s.inputs.filterMap (fun iv =>
    match iv.2 with
    | .ref st _ => if (basicNames p).contains st then some st else none
    | _ => none)

/-! ## Validation (Modelled from the spec)

The repository only constructs the descriptor and hands it to the external
service; the validation rules below ("every step name unique; every property
reference resolves to an existing step+output; the graph contains no cycles")
are modelled from the specification of the descriptor builder. -/

/-- Modelled from the spec: executable duplicate-freedom check on a name
list. -/
def nodupB : List String → Bool
  | [] => true
  | n :: rest => !(rest.contains n) && nodupB rest

/-- Modelled from the spec: a single property reference resolves if some basic
step of the pipeline has the referenced name and declares the referenced
output. -/
def refResolvesB (p : Pipeline) (r : String × String) : Bool :=
  (allBasicSteps p).any (fun s => s.name == r.1 && s.outputs.contains r.2)

/-- Modelled from the spec: all property references resolve. -/
def resolvesB (p : Pipeline) : Bool :=
  (allRefs p).all (fun r => refResolvesB p r)

/-- First-match lookup in a rank association list. -/
def lookupRank : List (String × Nat) → String → Option Nat
  | [], _ => none
  | e :: rest, n => if e.1 = n then some e.2 else lookupRank rest n

/-- Modelled from the spec: one elimination pass of a Kahn-style topological
ordering.  Each round assigns the current round number as rank to every
remaining step all of whose dependencies already have ranks; it stops when no
step is ready or the fuel is exhausted. -/
def kahnAux (g : BasicStep → List String) :
    Nat → Nat → List (String × Nat) → List BasicStep →
      List (String × Nat) × List BasicStep
  | 0, _, ranks, rem => (ranks, rem)
  | fuel + 1, round, ranks, rem =>
    if (rem.filter (fun s => (g s).all (fun d => (lookupRank ranks d).isSome))).isEmpty then
      (ranks, rem)
    else
      kahnAux g fuel (round + 1)
        (ranks ++ (rem.filter (fun s => (g s).all (fun d =>
          (lookupRank ranks d).isSome))).map (fun s => (s.name, round)))
        (rem.filter (fun s => !(g s).all (fun d => (lookupRank ranks d).isSome)))

/-- Modelled from the spec: the dependency graph induced by property
references (ignoring conditional alternation) is acyclic when the elimination
pass consumes every basic step. -/
def checkAcyclicB (p : Pipeline) : Bool :=
  ((kahnAux (depNames p) (allBasicSteps p).length 0 [] (allBasicSteps p)).2).isEmpty

/-- Modelled from the spec: descriptor validation, performed before
submission: every step name unique across the top-level list and all
conditional branches, every property reference resolves, and the dependency
graph contains no cycles. -/
def validatePipeline (p : Pipeline) : Bool :=
  nodupB (allStepNames p) && resolvesB p && checkAcyclicB p

/-- All output names that the pipeline references on a given step, through
basic-step property references or condition predicates. -/
def referencedOutputsOf (p : Pipeline) (n : String) : List String :=
  (allRefs p).filterMap (fun r => if r.1 = n then some r.2 else none)

/-! ## Small descriptors exercising the validation failure conditions -/

/-- A pipeline whose two top-level steps share the name `A`. -/
def dupNamePipeline : Pipeline :=
  { name := "dup-demo", parameters := [],
    steps :=
      [ .basic { name := "A", kind := .process, inputs := [], outputs := [] },
        .basic { name := "A", kind := .process, inputs := [], outputs := [] } ] }

/-- A pipeline whose single step holds a property reference to a step `B`
that does not exist. -/
def danglingRefPipeline : Pipeline :=
  { name := "dangling-demo", parameters := [],
    steps :=
      [ .basic { name := "A", kind := .process,
                 inputs := [("in", .ref "B" "out")], outputs := [] } ] }

/-- A pipeline whose output reference exists but names an output the step does
not declare. -/
def missingOutputPipeline : Pipeline :=
  { name := "missing-output-demo", parameters := [],
    steps :=
      [ .basic { name := "A", kind := .process, inputs := [], outputs := ["out"] },
        .basic { name := "B", kind := .process,
                 inputs := [("in", .ref "A" "other")], outputs := [] } ] }

/-- A pipeline whose two steps reference each other, forming a dependency
cycle. -/
def cyclicPipeline : Pipeline :=
  { name := "cyclic-demo", parameters := [],
    steps :=
      [ .basic { name := "A", kind := .process,
                 inputs := [("in", .ref "B" "out")], outputs := ["out"] },
        .basic { name := "B", kind := .process,
                 inputs := [("in", .ref "A" "out")], outputs := ["out"] } ] }

/-! ## Registry and submission (Modelled from the spec)

Submission (`pipeline.upsert`, cell 39) registers the descriptor with the
external service under its unique name, updating any existing definition of
the same name.  The service-side registry is modelled from the spec as an
association list from pipeline names to definitions. -/

/-- Modelled from the spec: the external service's registry of submitted
pipeline definitions, keyed by pipeline name. -/
def Registry : Type := List (String × Pipeline)

/-- Modelled from the spec: the submit-or-update operation.  If the name is
already registered every entry of that name is updated in place; otherwise a
new entry is appended. -/
def upsert (r : List (String × Pipeline)) (n : String) (d : Pipeline) :
    List (String × Pipeline) :=
  if r.any (fun e => e.1 == n) then
    r.map (fun e => if e.1 == n then (n, d) else e)
  else
    r ++ [(n, d)]

/-- First-match lookup of a registered pipeline definition. -/
def lookupDef : List (String × Pipeline) → String → Option Pipeline
  | [], _ => none
  | e :: rest, n => if e.1 = n then some e.2 else lookupDef rest n

/-- How many registered entries carry a given pipeline name. -/
def countName (r : List (String × Pipeline)) (n : String) : Nat :=
  (r.filter (fun e => e.1 == n)).length

/-! ## Starting an execution (Modelled from the spec)

Starting (`pipeline.start`, cell 41) accepts optional parameter overrides,
which must satisfy each parameter's declared type and allowed-values
constraint; an invalid override is rejected before submission. -/

/-- Modelled from the spec: an override value matches a parameter when its
runtime type agrees with the declared type and, if the parameter declares an
enumerated allowed set, the value is a member of that set. -/
def valueMatches (q : Parameter) (v : ParamValue) : Bool :=
  (match q.ptype, v with
   | .int, .intVal _ => true
   | .str, .strVal _ => true
   | _, _ => false)
  && (match q.enumValues, v with
      | some es, .strVal s => es.contains s
      | some _, _ => false
      | none, _ => true)

/-- Modelled from the spec: every override must name a declared parameter and
match it. -/
def validateOverrides (params : List Parameter)
    (ov : List (String × ParamValue)) : Bool :=
  ov.all (fun o => params.any (fun q => q.name == o.1 && valueMatches q o.2))

/-- Modelled from the spec: starting a pipeline execution with parameter
overrides.  Validation failures are reported before submission (`none`);
otherwise the execution starts from the fully resolved parameter assignment,
overrides taking precedence over declared defaults. -/
def startPipeline (p : Pipeline) (ov : List (String × ParamValue)) :
    Option (List (String × ParamValue)) :=
  if validateOverrides p.parameters ov then
    some (p.parameters.map (fun q =>
      (q.name, match ov.find? (fun o => o.1 == q.name) with
               | some o => o.2
               | none => q.deflt)))
  else none

/-! ## Execution-time semantics of the condition step (Modelled from the spec)

The external engine's step state machine is modelled from the spec: each step
moves through Pending, Executing and then Succeeded or Failed once its
dependencies are satisfied; the condition step evaluates its predicate only
after the steps it depends on reach Succeeded, and then selects exactly one
branch; steps of the other branch are never scheduled. -/

/-- Modelled from the spec: execution status of one step. -/
inductive Status
  | pending
  | executing
  | succeeded
  | failed
deriving DecidableEq, Repr

/-- Modelled from the spec: the execution state: the status of every step
(keyed by name) and, once the condition step has evaluated its predicate, the
boolean value it evaluated to. -/
structure ExecState where
  status : String → Status
  chosen : Option Bool

/-- Update the recorded status of one step. -/
def setStatus (σ : ExecState) (n : String) (st : Status) : ExecState :=
  { σ with status := fun x => if x = n then st else σ.status x }

/-- The steps the condition step depends on: the steps named by its
predicates' `JsonGet` references. -/
def condDeps (c : ConditionNode) : List String :=
  c.preds.map (fun q => q.leftStep)

/-- The branch of the condition step selected by a predicate value. -/
def branchOf (c : ConditionNode) (b : Bool) : List BasicStep :=
  if b then c.ifSteps else c.elseSteps

/-- Every step name occurring in the execution: top-level basic steps and both
branches of the condition step. -/
def execNames (top : List BasicStep) (c : ConditionNode) : List String :=
  top.map (fun s => s.name) ++
    (c.ifSteps.map (fun s => s.name) ++ c.elseSteps.map (fun s => s.name))

/-- The initial execution state: every step Pending, the condition not yet
evaluated. -/
def execInit : ExecState :=
  { status := fun _ => .pending, chosen := none }

/-- Modelled from the spec: one transition of the external execution engine,
for a pipeline with top-level basic steps `top`, one condition step `c`, a
dependency map `g` induced by the property references, and a resolved metric
value `m`.  A step may start once it is Pending and its dependencies have
Succeeded; branch steps additionally require their branch to have been
selected; an Executing step may finish as Succeeded or Failed; the condition
step evaluates its predicate once all the steps it depends on have
Succeeded. -/
inductive EStep (g : BasicStep → List String) (top : List BasicStep)
    (c : ConditionNode) (m : ℚ) : ExecState → ExecState → Prop
  | startTop (σ : ExecState) (s : BasicStep) (hs : s ∈ top)
      (hp : σ.status s.name = .pending)
      (hd : ∀ d ∈ g s, σ.status d = .succeeded) :
      EStep g top c m σ (setStatus σ s.name .executing)
  | startBranch (σ : ExecState) (b : Bool) (s : BasicStep)
      (hb : σ.chosen = some b) (hs : s ∈ branchOf c b)
      (hp : σ.status s.name = .pending)
      (hd : ∀ d ∈ g s, σ.status d = .succeeded) :
      EStep g top c m σ (setStatus σ s.name .executing)
  | finishOk (σ : ExecState) (n : String) (h : σ.status n = .executing) :
      EStep g top c m σ (setStatus σ n .succeeded)
  | finishFail (σ : ExecState) (n : String) (h : σ.status n = .executing) :
      EStep g top c m σ (setStatus σ n .failed)
  | evalCond (σ : ExecState) (hc : σ.chosen = none)
      (hd : ∀ d ∈ condDeps c, σ.status d = .succeeded) :
      EStep g top c m σ { σ with chosen := some (evalCondB c m) }

/-- Modelled from the spec: the reachable execution states. -/
def Reachable (g : BasicStep → List String) (top : List BasicStep)
    (c : ConditionNode) (m : ℚ) (σ : ExecState) : Prop :=
  Relation.ReflTransGen (EStep g top c m) execInit σ

/-! ## A concrete execution trace of the demo pipeline -/

/-- The top-level basic steps of the demo pipeline. -/
def demoTopBasics : List BasicStep := [stepCallbackData, stepTrain, stepEval]

/-- Trace state: the callback step has started. -/
def demoState1 : ExecState := setStatus execInit "GluePrepCallbackStep" .executing

/-- Trace state: the callback step has succeeded. -/
def demoState2 : ExecState := setStatus demoState1 "GluePrepCallbackStep" .succeeded

/-- Trace state: the training step has started. -/
def demoState3 : ExecState := setStatus demoState2 "TrainModel" .executing

/-- Trace state: the training step has succeeded. -/
def demoState4 : ExecState := setStatus demoState3 "TrainModel" .succeeded

/-- Trace state: the evaluation step has started. -/
def demoState5 : ExecState := setStatus demoState4 "EvaluateModel" .executing

/-- Trace state: the evaluation step has succeeded. -/
def demoState6 : ExecState := setStatus demoState5 "EvaluateModel" .succeeded

/-- Trace state: the condition step has evaluated its predicate at resolved
metric value `m`. -/
def demoEvalState (m : ℚ) : ExecState :=
  { demoState6 with chosen := some (evalCondB stepCond m) }

/-! ## Bridging lemmas between the executable checks and their specifications -/

theorem nodupB_eq_true_iff (l : List String) : nodupB l = true ↔ l.Nodup := by
  induction l with
  | nil => simp [nodupB]
  | cons n rest ih => simp [nodupB, ih, List.nodup_cons]

theorem validate_parts {p : Pipeline} (h : validatePipeline p = true) :
    nodupB (allStepNames p) = true ∧ resolvesB p = true ∧ checkAcyclicB p = true := by
  simpa [validatePipeline, Bool.and_eq_true, and_assoc] using h

theorem refResolvesB_eq_true_iff (p : Pipeline) (r : String × String) :
    refResolvesB p r = true ↔
      ∃ s, s ∈ allBasicSteps p ∧ s.name = r.1 ∧ r.2 ∈ s.outputs := by
  simp [refResolvesB, List.any_eq_true, Bool.and_eq_true, beq_iff_eq, and_assoc]

theorem resolvesB_eq_true_iff (p : Pipeline) :
    resolvesB p = true ↔
      ∀ r ∈ allRefs p, ∃ s, s ∈ allBasicSteps p ∧ s.name = r.1 ∧ r.2 ∈ s.outputs := by
  simp only [resolvesB, List.all_eq_true, refResolvesB_eq_true_iff]

/-- C1: for the pipeline's condition step, whose predicate compares the
resolved accuracy metric against the threshold `0.95`, a resolved metric value
of `0.97` makes the predicate true and selects the then-branch, and a resolved
metric value of `0.93` makes it false and selects the (distinct) else-branch. -/
theorem condition_threshold_branch_selection :
    demoCondPred.rhs = mkRat 95 100 ∧
    evalCondB stepCond (mkRat 97 100) = true ∧
    evalCondB stepCond (mkRat 93 100) = false ∧
    selectBranch stepCond (mkRat 97 100) = stepCond.ifSteps ∧
    selectBranch stepCond (mkRat 93 100) = stepCond.elseSteps ∧
    stepCond.ifSteps ≠ stepCond.elseSteps := by decide

/-- C2: a pipeline that passes validation has pairwise distinct step names
across the top-level step list and all conditional branches, and a pipeline
containing two steps with the same name fails validation. -/
theorem unique_step_names (p : Pipeline) :
    (validatePipeline p = true → (allStepNames p).Nodup) ∧
    (¬ (allStepNames p).Nodup → validatePipeline p = false) := by
  constructor
  · intro h
    exact (nodupB_eq_true_iff _).1 (validate_parts h).1
  · intro h
    cases hv : validatePipeline p with
    | false => rfl
    | true => exact absurd ((nodupB_eq_true_iff _).1 (validate_parts hv).1) h

/-- Witness for C2: the demo pipeline validates and indeed has pairwise
distinct step names, while the duplicate-name pipeline is rejected. -/
theorem unique_step_names_witness :
    (allStepNames demoPipeline).Nodup ∧ validatePipeline dupNamePipeline = false :=
  ⟨(unique_step_names demoPipeline).1 (by decide),
   (unique_step_names dupNamePipeline).2 (by decide)⟩

/-- C3: in a pipeline that passes validation, every property reference names a
step and an output that exist in the same pipeline graph, and a pipeline
containing a property reference to a non-existent step or output fails
validation. -/
theorem property_refs_resolve (p : Pipeline) :
    (validatePipeline p = true →
      ∀ r ∈ allRefs p, ∃ s, s ∈ allBasicSteps p ∧ s.name = r.1 ∧ r.2 ∈ s.outputs) ∧
    ((∃ r ∈ allRefs p, ∀ s ∈ allBasicSteps p, s.name = r.1 → r.2 ∉ s.outputs) →
      validatePipeline p = false) := by
  constructor
  · intro h
    exact (resolvesB_eq_true_iff p).1 (validate_parts h).2.1
  · rintro ⟨r, hr, hbad⟩
    cases hv : validatePipeline p with
    | false => rfl
    | true =>
      obtain ⟨s, hs, hname, hout⟩ :=
        (resolvesB_eq_true_iff p).1 (validate_parts hv).2.1 r hr
      exact absurd hout (hbad s hs hname)

/-- Witness for C3: the demo pipeline's reference to the callback step's
`trainUri` output resolves, while a reference to a missing step and a
reference to an undeclared output are each rejected. -/
theorem property_refs_resolve_witness :
    (∃ s, s ∈ allBasicSteps demoPipeline ∧ s.name = "GluePrepCallbackStep" ∧
      "trainUri" ∈ s.outputs) ∧
    validatePipeline danglingRefPipeline = false ∧
    validatePipeline missingOutputPipeline = false :=
  ⟨(property_refs_resolve demoPipeline).1 (by decide)
      ("GluePrepCallbackStep", "trainUri") (by decide),
   (property_refs_resolve danglingRefPipeline).2 ⟨("B", "out"), by decide, by decide⟩,
   (property_refs_resolve missingOutputPipeline).2 ⟨("A", "other"), by decide, by decide⟩⟩

/-- C10: the callback step declares the three outputs `trainUri`, `valUri`,
`testUri`; downstream steps reference `trainUri` and `valUri` but the declared
`testUri` output is never referenced anywhere in the constructed pipeline, and
the evaluation step instead reads the test dataset from a literal S3 URI. -/
theorem callback_outputs_usage :
    stepCallbackData.outputs = ["trainUri", "valUri", "testUri"] ∧
    "trainUri" ∈ referencedOutputsOf demoPipeline "GluePrepCallbackStep" ∧
    "valUri" ∈ referencedOutputsOf demoPipeline "GluePrepCallbackStep" ∧
    "testUri" ∉ referencedOutputsOf demoPipeline "GluePrepCallbackStep" ∧
    ("/opt/ml/processing/test",
      InputVal.lit "s3://sagemaker-us-east-1-822507008821/sagemaker/DEMO-xgboost-customer-churn-connect/processed/test/test.csv")
        ∈ stepEval.inputs := by decide

theorem headName_mem_stepNames (st : Step) : headName st ∈ stepNames st := by
  cases st <;> simp [headName, stepNames]

/-- C4: in a pipeline that passes validation, every condition step's
then-branch and else-branch step-name sets are disjoint from each other, and
both are disjoint from the names of the top-level step list. -/
theorem condition_branches_disjoint (p : Pipeline)
    (hv : validatePipeline p = true) :
    ∀ c : ConditionNode, Step.condStep c ∈ p.steps →
      (∀ n ∈ c.ifSteps.map (fun s => s.name), n ∉ c.elseSteps.map (fun s => s.name)) ∧
      (∀ n ∈ c.ifSteps.map (fun s => s.name) ++ c.elseSteps.map (fun s => s.name),
        n ∉ topLevelNames p) := by
  intro c hc
  have hnd : (allStepNames p).Nodup := (nodupB_eq_true_iff _).1 (validate_parts hv).1
  rw [allStepNames, List.nodup_flatMap] at hnd
  obtain ⟨heach, hpair⟩ := hnd
  have hcn : (stepNames (Step.condStep c)).Nodup := heach _ hc
  rw [show stepNames (Step.condStep c)
        = c.name :: (c.ifSteps.map (fun s => s.name) ++ c.elseSteps.map (fun s => s.name))
      from rfl, List.nodup_cons] at hcn
  obtain ⟨hheadnm, htail⟩ := hcn
  refine ⟨fun n hin hie => (List.nodup_append.1 htail).2.2 hin hie, ?_⟩
  intro n hn htop
  obtain ⟨st, hst, hhead⟩ := List.mem_map.1 htop
  have hnc : n ∈ stepNames (Step.condStep c) := List.mem_cons_of_mem _ hn
  by_cases he : st = Step.condStep c
  · subst he
    rw [show headName (Step.condStep c) = c.name from rfl] at hhead
    exact hheadnm (hhead ▸ hn)
  · have hdisj : List.Disjoint (stepNames st) (stepNames (Step.condStep c)) :=
      hpair.forall (fun _ _ h => List.disjoint_symm h) hst hc he
    exact hdisj (hhead ▸ headName_mem_stepNames st) hnc

/-- Witness for C4: the demo pipeline's condition step has branches disjoint
from each other and from the top-level step list. -/
theorem condition_branches_disjoint_witness :
    (∀ n ∈ stepCond.ifSteps.map (fun s => s.name),
        n ∉ stepCond.elseSteps.map (fun s => s.name)) ∧
    (∀ n ∈ stepCond.ifSteps.map (fun s => s.name)
          ++ stepCond.elseSteps.map (fun s => s.name),
        n ∉ topLevelNames demoPipeline) :=
  condition_branches_disjoint demoPipeline (by decide) stepCond (by decide)

/-! ## Soundness of the acyclicity check: ranks certify a topological order -/

theorem lookupRank_append (A B : List (String × Nat)) (n : String) :
    lookupRank (A ++ B) n =
      match lookupRank A n with
      | some r => some r
      | none => lookupRank B n := by
  induction A with
  | nil => simp [lookupRank]
  | cons e rest ih =>
    by_cases h : e.1 = n <;> simp [lookupRank, h, ih]

theorem lookupRank_append_left {A : List (String × Nat)} {n : String} {r : Nat}
    (B : List (String × Nat)) (h : lookupRank A n = some r) :
    lookupRank (A ++ B) n = some r := by
  rw [lookupRank_append, h]

theorem lookupRank_append_right {A : List (String × Nat)} {n : String}
    (B : List (String × Nat)) (h : lookupRank A n = none) :
    lookupRank (A ++ B) n = lookupRank B n := by
  rw [lookupRank_append, h]

theorem lookupRank_map_const_some {l : List BasicStep} {k : Nat} {n : String}
    (h : ∃ s ∈ l, s.name = n) :
    lookupRank (l.map (fun s => (s.name, k))) n = some k := by
  induction l with
  | nil => simp at h
  | cons s rest ih =>
    by_cases hs : s.name = n
    · simp [lookupRank, hs]
    · obtain ⟨t, ht, htn⟩ := h
      rcases List.mem_cons.1 ht with h1 | h1
      · exact absurd (h1 ▸ htn) hs
      · simp [lookupRank, hs, ih ⟨t, h1, htn⟩]

theorem lookupRank_map_const_inv {l : List BasicStep} {k : Nat} {n : String} {r : Nat}
    (h : lookupRank (l.map (fun s => (s.name, k))) n = some r) :
    r = k ∧ ∃ s ∈ l, s.name = n := by
  induction l with
  | nil => simp [lookupRank] at h
  | cons s rest ih =>
    by_cases hs : s.name = n
    · simp [lookupRank, hs] at h
      exact ⟨h.symm, s, List.mem_cons_self .., hs⟩
    · simp only [List.map_cons, lookupRank, hs, if_false] at h
      obtain ⟨hk, t, ht, htn⟩ := ih h
      exact ⟨hk, t, List.mem_cons_of_mem _ ht, htn⟩

theorem lookupRank_map_const_none {l : List BasicStep} {k : Nat} {n : String}
    (h : ∀ s ∈ l, s.name ≠ n) :
    lookupRank (l.map (fun s => (s.name, k))) n = none := by
  induction l with
  | nil => rfl
  | cons s rest ih =>
    simp only [List.map_cons, lookupRank, h s (List.mem_cons_self ..), if_false]
    exact ih (fun t ht => h t (List.mem_cons_of_mem _ ht))

theorem kahnAux_sound (g : BasicStep → List String) (steps0 : List BasicStep)
    (h0 : (steps0.map (fun s => s.name)).Nodup) :
    ∀ (fuel round : Nat) (ranks : List (String × Nat)) (rem : List BasicStep),
      (∀ n r, lookupRank ranks n = some r → r < round) →
      (∀ n r, lookupRank ranks n = some r → ∀ s ∈ steps0, s.name = n →
        ∀ d ∈ g s, ∃ r2, lookupRank ranks d = some r2 ∧ r2 < r) →
      (∀ s ∈ steps0, s ∈ rem ∨ (lookupRank ranks s.name).isSome) →
      (∀ s ∈ rem, lookupRank ranks s.name = none) →
      ((rem.map (fun s => s.name)).Nodup) →
      (∀ s ∈ rem, s ∈ steps0) →
      ∀ ranks2 rem2, kahnAux g fuel round ranks rem = (ranks2, rem2) →
        (∀ n r, lookupRank ranks2 n = some r → ∀ s ∈ steps0, s.name = n →
          ∀ d ∈ g s, ∃ r2, lookupRank ranks2 d = some r2 ∧ r2 < r) ∧
        (∀ s ∈ steps0, s ∈ rem2 ∨ (lookupRank ranks2 s.name).isSome) := by
  intro fuel
  induction fuel with
  | zero =>
    intro round ranks rem _ hb hc _ _ _ ranks2 rem2 heq
    rw [kahnAux] at heq
    cases heq
    exact ⟨hb, hc⟩
  | succ fuel ih =>
    intro round ranks rem ha hb hc hd he hf ranks2 rem2 heq
    rw [kahnAux] at heq
    by_cases hready :
        (rem.filter (fun s => (g s).all (fun d => (lookupRank ranks d).isSome))).isEmpty
    · rw [if_pos hready] at heq
      cases heq
      exact ⟨hb, hc⟩
    · rw [if_neg hready] at heq
      refine ih (round + 1)
        (ranks ++ (rem.filter (fun s => (g s).all (fun d =>
          (lookupRank ranks d).isSome))).map (fun s => (s.name, round)))
        (rem.filter (fun s => !(g s).all (fun d => (lookupRank ranks d).isSome)))
        ?_ ?_ ?_ ?_ ?_ ?_ ranks2 rem2 heq
      · -- every rank stays below the new round counter
        intro n r hn
        rw [lookupRank_append] at hn
        cases hold : lookupRank ranks n with
        | some r3 =>
          rw [hold] at hn
          cases hn
          exact Nat.lt_succ_of_lt (ha n r hold)
        | none =>
          rw [hold] at hn
          have := (lookupRank_map_const_inv hn).1
          omega
      · -- dependency ranks stay strictly below the step's rank
        intro n r hn s hs hsn d hdep
        rw [lookupRank_append] at hn
        cases hold : lookupRank ranks n with
        | some r3 =>
          rw [hold] at hn
          cases hn
          obtain ⟨r2, hr2, hlt⟩ := hb n r hold s hs hsn d hdep
          exact ⟨r2, lookupRank_append_left _ hr2, hlt⟩
        | none =>
          rw [hold] at hn
          obtain ⟨hr, t, htmem, htn⟩ := lookupRank_map_const_inv hn
          have htrem := (List.mem_filter.1 htmem).1
          have htready := (List.mem_filter.1 htmem).2
          have hts : t ∈ steps0 := hf t htrem
          have hst : s = t :=
            List.inj_on_of_nodup_map h0 hs hts (by rw [hsn, htn])
          have hall := List.all_eq_true.1 htready d (hst ▸ hdep)
          obtain ⟨r2, hr2⟩ := Option.isSome_iff_exists.1 hall
          exact ⟨r2, lookupRank_append_left _ hr2, hr ▸ ha d r2 hr2⟩
      · -- every step is still pending or ranked
        intro s hs
        rcases hc s hs with hrem | hior
        · by_cases hsr : (g s).all (fun d => (lookupRank ranks d).isSome)
          · right
            rw [lookupRank_append_right _ (hd s hrem),
              lookupRank_map_const_some ⟨s, List.mem_filter.2 ⟨hrem, hsr⟩, rfl⟩]
            rfl
          · left
            exact List.mem_filter.2 ⟨hrem, by simpa using hsr⟩
        · obtain ⟨r, hr⟩ := Option.isSome_iff_exists.1 hior
          right
          rw [lookupRank_append_left _ hr]
          rfl
      · -- unranked steps stay unranked
        intro s hsmem
        have hsrem := (List.mem_filter.1 hsmem).1
        have hsnr := (List.mem_filter.1 hsmem).2
        rw [lookupRank_append_right _ (hd s hsrem)]
        refine lookupRank_map_const_none ?_
        intro t htmem htn
        have htrem := (List.mem_filter.1 htmem).1
        have htready := (List.mem_filter.1 htmem).2
        have : t = s := List.inj_on_of_nodup_map he htrem hsrem htn
        rw [this] at htready
        simp [htready] at hsnr
      · exact he.sublist ((List.filter_sublist rem).map (fun s => s.name))
      · intro s hsmem
        exact hf s (List.mem_filter.1 hsmem).1

theorem basicNames_sublist (p : Pipeline) :
    List.Sublist (basicNames p) (allStepNames p) := by
  rw [basicNames, allBasicSteps, allStepNames, List.map_flatMap]
  induction p.steps with
  | nil => simp
  | cons st rest ih =>
    rw [List.flatMap_cons, List.flatMap_cons]
    refine List.Sublist.append ?_ ih
    cases st with
    | basic s => simp [stepNames]
    | condStep c =>
      refine List.Sublist.cons _ ?_
      simp [stepNames]

theorem kahn_certificate (p : Pipeline)
    (hnames : (basicNames p).Nodup) (hac : checkAcyclicB p = true) :
    ∃ ranks2 : List (String × Nat),
      ∀ s ∈ allBasicSteps p, ∃ r, lookupRank ranks2 s.name = some r ∧
        ∀ d ∈ depNames p s, ∃ r2, lookupRank ranks2 d = some r2 ∧ r2 < r := by
  have h0 : ((allBasicSteps p).map (fun s => s.name)).Nodup := hnames
  obtain ⟨ranks2, rem2, heq⟩ :
      ∃ a b, kahnAux (depNames p) (allBasicSteps p).length 0 [] (allBasicSteps p) = (a, b) :=
    ⟨_, _, rfl⟩
  obtain ⟨hb2, hc2⟩ :=
    kahnAux_sound (depNames p) (allBasicSteps p) h0 (allBasicSteps p).length 0 []
      (allBasicSteps p)
      (fun n r hn => by simp [lookupRank] at hn)
      (fun n r hn => by simp [lookupRank] at hn)
      (fun s hs => Or.inl hs)
      (fun s _ => rfl) h0 (fun s hs => hs) ranks2 rem2 heq
  have hrem : rem2 = [] := by
    rw [checkAcyclicB, heq] at hac
    simpa [List.isEmpty_iff] using hac
  refine ⟨ranks2, fun s hs => ?_⟩
  rcases hc2 s hs with h1 | h2
  · rw [hrem] at h1
    cases h1
  · obtain ⟨r, hr⟩ := Option.isSome_iff_exists.1 h2
    exact ⟨r, hr, hb2 s.name r hr s hs rfl⟩

/-- C5: in a pipeline that passes validation, the dependency graph induced by
property references (ignoring conditional alternation) contains no cycles, and
a pipeline with a cyclic dependency is rejected before submission. -/
theorem dependency_graph_acyclic (p : Pipeline) :
    (validatePipeline p = true →
      ∀ n, ¬ Relation.TransGen
        (fun a b => ∃ s, s ∈ allBasicSteps p ∧ s.name = a ∧ b ∈ depNames p s) n n) ∧
    ((∃ n, Relation.TransGen
        (fun a b => ∃ s, s ∈ allBasicSteps p ∧ s.name = a ∧ b ∈ depNames p s) n n) →
      validatePipeline p = false) := by
  have main : validatePipeline p = true →
      ∀ n, ¬ Relation.TransGen
        (fun a b => ∃ s, s ∈ allBasicSteps p ∧ s.name = a ∧ b ∈ depNames p s) n n := by
    intro hv n hcyc
    have hnames : (basicNames p).Nodup :=
      ((nodupB_eq_true_iff _).1 (validate_parts hv).1).sublist (basicNames_sublist p)
    obtain ⟨ranks2, hcert⟩ := kahn_certificate p hnames (validate_parts hv).2.2
    have hedge : ∀ a b, (∃ s, s ∈ allBasicSteps p ∧ s.name = a ∧ b ∈ depNames p s) →
        (lookupRank ranks2 b).getD 0 < (lookupRank ranks2 a).getD 0 := by
      rintro a b ⟨s, hs, rfl, hdep⟩
      obtain ⟨r, hr, hdeps⟩ := hcert s hs
      obtain ⟨r2, hr2, hlt⟩ := hdeps b hdep
      rw [hr, hr2]
      exact hlt
    have hmono : ∀ x y, Relation.TransGen
        (fun a b => ∃ s, s ∈ allBasicSteps p ∧ s.name = a ∧ b ∈ depNames p s) x y →
        (lookupRank ranks2 y).getD 0 < (lookupRank ranks2 x).getD 0 := by
      intro x y h
      induction h with
      | single h1 => exact hedge _ _ h1
      | tail _ h2 ih => exact lt_trans (hedge _ _ h2) ih
    exact lt_irrefl _ (hmono n n hcyc)
  refine ⟨main, ?_⟩
  rintro ⟨n, hcyc⟩
  cases hv : validatePipeline p with
  | false => rfl
  | true => exact absurd hcyc (main hv n)

/-- Witness for C5: the demo pipeline validates and its training step lies on
no dependency cycle, while the two-step cyclic pipeline is rejected. -/
theorem dependency_graph_acyclic_witness :
    (validatePipeline demoPipeline = true ∧
      ¬ Relation.TransGen
        (fun a b => ∃ s, s ∈ allBasicSteps demoPipeline ∧ s.name = a ∧
          b ∈ depNames demoPipeline s) "TrainModel" "TrainModel") ∧
    validatePipeline cyclicPipeline = false :=
  ⟨⟨by decide, (dependency_graph_acyclic demoPipeline).1 (by decide) "TrainModel"⟩,
   by
    refine (dependency_graph_acyclic cyclicPipeline).2 ⟨"A", ?_⟩
    have e1 : ∃ s, s ∈ allBasicSteps cyclicPipeline ∧ s.name = "A" ∧
        "B" ∈ depNames cyclicPipeline s :=
      ⟨{ name := "A", kind := .process, inputs := [("in", .ref "B" "out")],
         outputs := ["out"] }, by decide, by decide, by decide⟩
    have e2 : ∃ s, s ∈ allBasicSteps cyclicPipeline ∧ s.name = "B" ∧
        "A" ∈ depNames cyclicPipeline s :=
      ⟨{ name := "B", kind := .process, inputs := [("in", .ref "A" "out")],
         outputs := ["out"] }, by decide, by decide, by decide⟩
    exact Relation.TransGen.tail (Relation.TransGen.single e1) e2⟩

/-! ## Conditional-scheduling invariant of the execution semantics -/

theorem branchOf_subset (c : ConditionNode) (b : Bool) {s : BasicStep}
    (hs : s ∈ branchOf c b) : s ∈ c.ifSteps ++ c.elseSteps := by
  cases b with
  | true => exact List.mem_append_left _ hs
  | false => exact List.mem_append_right _ hs

theorem exec_invariant (g : BasicStep → List String) (top : List BasicStep)
    (c : ConditionNode) (m : ℚ) (hnd : (execNames top c).Nodup)
    (σ : ExecState) (hr : Reachable g top c m σ) :
    (σ.chosen = none →
      ∀ s ∈ c.ifSteps ++ c.elseSteps, σ.status s.name = Status.pending) ∧
    (∀ b, σ.chosen = some b →
      b = evalCondB c m ∧
      (∀ d ∈ condDeps c, σ.status d = Status.succeeded) ∧
      (∀ s ∈ branchOf c (!b), σ.status s.name = Status.pending)) := by
  have hndt := List.nodup_append.1 hnd
  have hA : ∀ s ∈ top, ∀ t, t ∈ c.ifSteps ++ c.elseSteps → s.name ≠ t.name := by
    intro s hs t ht heq
    refine hndt.2.2 (List.mem_map_of_mem (fun s => s.name) hs) ?_
    have := List.mem_map_of_mem (fun s => s.name) ht
    rw [List.map_append] at this
    exact heq ▸ this
  have hB : ∀ b : Bool, ∀ t, t ∈ branchOf c b → ∀ u, u ∈ branchOf c (!b) →
      t.name ≠ u.name := by
    have hdisj := (List.nodup_append.1 hndt.2.1).2.2
    intro b t ht u hu heq
    cases b with
    | true =>
      simp only [branchOf, Bool.not_true, if_pos, if_neg] at ht hu
      exact hdisj (List.mem_map_of_mem (fun s => s.name) ht)
        (heq ▸ List.mem_map_of_mem (fun s => s.name) hu)
    | false =>
      simp only [branchOf, Bool.not_false, if_pos, if_neg] at ht hu
      exact hdisj (List.mem_map_of_mem (fun s => s.name) hu)
        (heq ▸ List.mem_map_of_mem (fun s => s.name) ht)
  induction hr with
  | refl =>
    exact ⟨fun _ s _ => rfl, fun b hb => by simp [execInit] at hb⟩
  | tail hprev hstep ih =>
    obtain ⟨ih1, ih2⟩ := ih
    cases hstep with
    | startTop s hs hp hd =>
      constructor
      · intro hch t ht
        have hne : t.name ≠ s.name := fun h => hA s hs t ht (h.symm)
        have := ih1 hch t ht
        simpa [setStatus, hne] using this
      · intro b hb
        obtain ⟨hbv, hdeps, hpend⟩ := ih2 b hb
        refine ⟨hbv, ?_, ?_⟩
        · intro d hdmem
          have hds := hdeps d hdmem
          have hne : d ≠ s.name := fun h => by rw [h, hp] at hds; cases hds
          simpa [setStatus, hne] using hds
        · intro t ht
          have hne : t.name ≠ s.name := fun h =>
            hA s hs t (branchOf_subset c (!b) ht) (h.symm)
          simpa [setStatus, hne] using hpend t ht
    | startBranch b0 s hb0 hs hp hd =>
      constructor
      · intro hch
        rw [show (setStatus _ s.name Status.executing).chosen = some b0 from hb0] at hch
        cases hch
      · intro b hb
        rw [show (setStatus _ s.name Status.executing).chosen = some b0 from hb0] at hb
        cases hb
        obtain ⟨hbv, hdeps, hpend⟩ := ih2 b0 hb0
        refine ⟨hbv, ?_, ?_⟩
        · intro d hdmem
          have hds := hdeps d hdmem
          have hne : d ≠ s.name := fun h => by rw [h, hp] at hds; cases hds
          simpa [setStatus, hne] using hds
        · intro t ht
          have hne : t.name ≠ s.name := fun h => hB b0 s hs t ht h.symm
          simpa [setStatus, hne] using hpend t ht
    | finishOk n h =>
      constructor
      · intro hch t ht
        have hts := ih1 hch t ht
        have hne : t.name ≠ n := fun he => by rw [he, h] at hts; cases hts
        simpa [setStatus, hne] using hts
      · intro b hb
        obtain ⟨hbv, hdeps, hpend⟩ := ih2 b hb
        refine ⟨hbv, ?_, ?_⟩
        · intro d hdmem
          by_cases hdn : d = n
          · simp [setStatus, hdn]
          · simpa [setStatus, hdn] using hdeps d hdmem
        · intro t ht
          have hts := hpend t ht
          have hne : t.name ≠ n := fun he => by rw [he, h] at hts; cases hts
          simpa [setStatus, hne] using hts
    | finishFail n h =>
      constructor
      · intro hch t ht
        have hts := ih1 hch t ht
        have hne : t.name ≠ n := fun he => by rw [he, h] at hts; cases hts
        simpa [setStatus, hne] using hts
      · intro b hb
        obtain ⟨hbv, hdeps, hpend⟩ := ih2 b hb
        refine ⟨hbv, ?_, ?_⟩
        · intro d hdmem
          have hds := hdeps d hdmem
          have hne : d ≠ n := fun he => by rw [he, h] at hds; cases hds
          simpa [setStatus, hne] using hds
        · intro t ht
          have hts := hpend t ht
          have hne : t.name ≠ n := fun he => by rw [he, h] at hts; cases hts
          simpa [setStatus, hne] using hts
    | evalCond hc0 hd =>
      constructor
      · intro hch
        cases hch
      · intro b hb
        cases hb
        exact ⟨rfl, hd, fun t ht =>
          ih1 hc0 t (branchOf_subset c _ ht)⟩

theorem demo_trace (m : ℚ) :
    Reachable (depNames demoPipeline) demoTopBasics stepCond m (demoEvalState m) := by
  have h1 : EStep (depNames demoPipeline) demoTopBasics stepCond m
      execInit demoState1 :=
    EStep.startTop execInit stepCallbackData (by decide) (by decide) (by decide)
  have h2 : EStep (depNames demoPipeline) demoTopBasics stepCond m
      demoState1 demoState2 :=
    EStep.finishOk demoState1 "GluePrepCallbackStep" (by decide)
  have h3 : EStep (depNames demoPipeline) demoTopBasics stepCond m
      demoState2 demoState3 :=
    EStep.startTop demoState2 stepTrain (by decide) (by decide) (by decide)
  have h4 : EStep (depNames demoPipeline) demoTopBasics stepCond m
      demoState3 demoState4 :=
    EStep.finishOk demoState3 "TrainModel" (by decide)
  have h5 : EStep (depNames demoPipeline) demoTopBasics stepCond m
      demoState4 demoState5 :=
    EStep.startTop demoState4 stepEval (by decide) (by decide) (by decide)
  have h6 : EStep (depNames demoPipeline) demoTopBasics stepCond m
      demoState5 demoState6 :=
    EStep.finishOk demoState5 "EvaluateModel" (by decide)
  have h7 : EStep (depNames demoPipeline) demoTopBasics stepCond m
      demoState6 (demoEvalState m) :=
    EStep.evalCond demoState6 (by decide) (by decide)
  exact Relation.ReflTransGen.head h1 (Relation.ReflTransGen.head h2
    (Relation.ReflTransGen.head h3 (Relation.ReflTransGen.head h4
      (Relation.ReflTransGen.head h5 (Relation.ReflTransGen.head h6
        (Relation.ReflTransGen.single h7))))))

/-- C6: in every execution of a pipeline (with pairwise distinct step names),
once the condition step has evaluated its predicate, the steps it depends on
had all reached Succeeded, the evaluated value equals the predicate applied to
the resolved metric so that exactly one branch is selected, and every step of
the unselected branch is still Pending — never Executing and never Failed. -/
theorem condition_step_scheduling
    (g : BasicStep → List String) (top : List BasicStep) (c : ConditionNode)
    (m : ℚ) (hnd : (execNames top c).Nodup) (σ : ExecState)
    (hr : Reachable g top c m σ) (b : Bool) (hb : σ.chosen = some b) :
    b = evalCondB c m ∧
    (∀ d ∈ condDeps c, σ.status d = Status.succeeded) ∧
    (∀ s ∈ branchOf c (!b), σ.status s.name = Status.pending) :=
  (exec_invariant g top c m hnd σ hr).2 b hb

/-- Witness for C6: after the concrete demo execution trace with resolved
metric `0.97`, the condition step has selected the then-branch, its
dependency (the evaluation step) has Succeeded, and the (empty) unselected
branch is untouched. -/
theorem condition_step_scheduling_witness :
    true = evalCondB stepCond (mkRat 97 100) ∧
    (∀ d ∈ condDeps stepCond,
      (demoEvalState (mkRat 97 100)).status d = Status.succeeded) ∧
    (∀ s ∈ branchOf stepCond (!true),
      (demoEvalState (mkRat 97 100)).status s.name = Status.pending) :=
  condition_step_scheduling (depNames demoPipeline) demoTopBasics stepCond
    (mkRat 97 100) (by decide) (demoEvalState (mkRat 97 100))
    (demo_trace (mkRat 97 100)) true (by decide)

/-- C9: the demo pipeline's condition step has an empty else-branch, and in
every execution of the demo pipeline in which the accuracy predicate
evaluates to false, no step is scheduled after the condition step: the
create-model, register-model and deploy steps all remain Pending forever. -/
theorem demo_false_predicate_skips_deployment (m : ℚ)
    (hm : evalCondB stepCond m = false) (σ : ExecState)
    (hr : Reachable (depNames demoPipeline) demoTopBasics stepCond m σ) :
    stepCond.elseSteps = [] ∧
    ∀ n ∈ ["CustomerChurnCreateModel", "RegisterModel", "DeployModel"],
      σ.status n = Status.pending := by
  have hnd : (execNames demoTopBasics stepCond).Nodup := by decide
  have hinv := exec_invariant (depNames demoPipeline) demoTopBasics stepCond m hnd σ hr
  refine ⟨rfl, ?_⟩
  intro n hn
  have hstep : ∃ s, s ∈ stepCond.ifSteps ∧ s.name = n := by
    simp only [List.mem_cons, List.not_mem_nil, or_false] at hn
    rcases hn with rfl | rfl | rfl
    · exact ⟨stepCreateModel, by decide, rfl⟩
    · exact ⟨stepRegister, by decide, rfl⟩
    · exact ⟨deployStep, by decide, rfl⟩
  obtain ⟨s, hsmem, hname⟩ := hstep
  rw [← hname]
  cases hch : σ.chosen with
  | none => exact hinv.1 hch s (List.mem_append_left _ hsmem)
  | some b =>
    obtain ⟨hb, _, hpend⟩ := hinv.2 b hch
    have hbf : b = false := by rw [hb, hm]
    refine hpend s ?_
    rw [hbf]
    exact hsmem

/-- Witness for C9: after the concrete demo execution trace with resolved
metric `0.93` the predicate is false and the three then-branch steps are all
still Pending. -/
theorem demo_false_predicate_skips_deployment_witness :
    stepCond.elseSteps = [] ∧
    ∀ n ∈ ["CustomerChurnCreateModel", "RegisterModel", "DeployModel"],
      (demoEvalState (mkRat 93 100)).status n = Status.pending :=
  demo_false_predicate_skips_deployment (mkRat 93 100) (by decide)
    (demoEvalState (mkRat 93 100)) (demo_trace (mkRat 93 100))

/-! ## Registry upsert behaviour -/

theorem mem_upsert_key {r : List (String × Pipeline)} {n : String} {d : Pipeline}
    {e : String × Pipeline} (he : e ∈ upsert r n d) (hk : e.1 = n) : e = (n, d) := by
  rw [upsert] at he
  by_cases hany : r.any (fun e => e.1 == n)
  · rw [if_pos hany] at he
    obtain ⟨x, hx, hfx⟩ := List.mem_map.1 he
    by_cases hxk : x.1 == n
    · rw [if_pos hxk] at hfx
      exact hfx.symm
    · rw [if_neg hxk] at hfx
      exact absurd (show (x.1 == n) = true by rw [hfx, hk]; simp) (by simpa using hxk)
  · rw [if_neg hany] at he
    rcases List.mem_append.1 he with h1 | h1
    · exact absurd (List.any_eq_true.2 ⟨e, h1, by simp [hk]⟩) hany
    · simpa using h1

theorem any_upsert (r : List (String × Pipeline)) (n : String) (d : Pipeline) :
    (upsert r n d).any (fun e => e.1 == n) = true := by
  rw [upsert]
  by_cases hany : r.any (fun e => e.1 == n)
  · rw [if_pos hany]
    obtain ⟨x, hx, hxk⟩ := List.any_eq_true.1 hany
    refine List.any_eq_true.2 ⟨(n, d), List.mem_map.2 ⟨x, hx, ?_⟩, by simp⟩
    rw [if_pos hxk]
  · rw [if_neg hany]
    exact List.any_eq_true.2 ⟨(n, d), List.mem_append_right _ (by simp), by simp⟩

theorem upsert_upsert (r : List (String × Pipeline)) (n : String) (d : Pipeline) :
    upsert (upsert r n d) n d = upsert r n d := by
  rw [upsert, if_pos (any_upsert r n d)]
  have h : ∀ e ∈ upsert r n d,
      (if e.1 == n then (n, d) else e) = e := by
    intro e he
    by_cases hek : e.1 == n
    · rw [if_pos hek, mem_upsert_key he (by simpa using hek)]
    · rw [if_neg hek]
  rw [List.map_congr_left h, List.map_id']

theorem lookupDef_upsert (r : List (String × Pipeline)) (n : String) (d : Pipeline) :
    lookupDef (upsert r n d) n = some d := by
  rw [upsert]
  by_cases hany : r.any (fun e => e.1 == n)
  · rw [if_pos hany]
    induction r with
    | nil => simp at hany
    | cons e rest ih =>
      by_cases hek : e.1 == n
      · rw [List.map_cons, if_pos hek]
        simp [lookupDef]
      · have hrest : rest.any (fun e => e.1 == n) = true := by
          rcases List.any_eq_true.1 hany with ⟨x, hx, hxk⟩
          rcases List.mem_cons.1 hx with h1 | h1
          · exact absurd (h1 ▸ hxk) (by simpa using hek)
          · exact List.any_eq_true.2 ⟨x, h1, hxk⟩
        have hne : e.1 ≠ n := by simpa using hek
        simp only [List.map_cons, if_neg hek, lookupDef, if_neg hne]
        exact ih hrest
  · rw [if_neg hany]
    induction r with
    | nil => simp [lookupDef]
    | cons e rest ih =>
      have hek : ¬ (e.1 == n) = true := by
        intro h
        exact hany (List.any_eq_true.2 ⟨e, List.mem_cons_self .., h⟩)
      have hne : e.1 ≠ n := by simpa using hek
      have hrest : ¬ rest.any (fun e => e.1 == n) = true := by
        intro h
        rcases List.any_eq_true.1 h with ⟨x, hx, hxk⟩
        exact hany (List.any_eq_true.2 ⟨x, List.mem_cons_of_mem _ hx, hxk⟩)
      simp only [List.cons_append, lookupDef, if_neg hne]
      exact ih hrest

theorem countName_upsert (r : List (String × Pipeline)) (n : String) (d : Pipeline)
    (hnd : (r.map Prod.fst).Nodup) : countName (upsert r n d) n = 1 := by
  rw [upsert]
  by_cases hany : r.any (fun e => e.1 == n)
  · rw [if_pos hany]
    have hkey : ∀ e : String × Pipeline,
        ((if e.1 == n then (n, d) else e).1 == n) = (e.1 == n) := by
      intro e
      by_cases hek : e.1 == n
      · rw [if_pos hek, hek]
        simp
      · rw [if_neg hek]
    have hcount : countName (r.map (fun e => if e.1 == n then (n, d) else e)) n
        = countName r n := by
      rw [countName, countName, ← List.countP_eq_length_filter,
        ← List.countP_eq_length_filter, List.countP_map]
      refine List.countP_congr ?_
      intro e he
      show ((if (e.1 == n) = true then (n, d) else e).1 == n) = true ↔ (e.1 == n) = true
      rw [hkey e]
    rw [hcount, countName, ← List.countP_eq_length_filter]
    have : List.countP (fun e => e.1 == n) r = List.count n (r.map Prod.fst) := by
      rw [List.count_eq_countP, List.countP_map]
      rfl
    rw [this]
    obtain ⟨x, hx, hxk⟩ := List.any_eq_true.1 hany
    exact List.count_eq_one_of_mem hnd
      (List.mem_map.2 ⟨x, hx, by simpa using hxk⟩)
  · rw [if_neg hany]
    have hzero : countName r n = 0 := by
      rw [countName, List.length_eq_zero]
      refine List.filter_eq_nil_iff.2 ?_
      intro e he hek
      exact hany (List.any_eq_true.2 ⟨e, he, hek⟩)
    rw [countName, List.filter_append]
    rw [countName] at hzero
    simp [hzero, List.filter]

/-- C7: upserting a pipeline under an already-registered name updates the
existing definition in place rather than creating a duplicate (under distinct
registry keys exactly one entry carries the name, and it holds the submitted
definition), and upsert is idempotent in the pipeline name: upserting the
same pipeline twice leaves the registry exactly as one upsert does. -/
theorem upsert_idempotent (r : List (String × Pipeline)) (n : String) (d : Pipeline) :
    upsert (upsert r n d) n d = upsert r n d ∧
    lookupDef (upsert r n d) n = some d ∧
    ((r.map Prod.fst).Nodup → countName (upsert r n d) n = 1) :=
  ⟨upsert_upsert r n d, lookupDef_upsert r n d, countName_upsert r n d⟩

/-- Witness for C7: re-submitting the demo pipeline under its registered name
keeps a single, unchanged registry entry. -/
theorem upsert_idempotent_witness :
    upsert (upsert [("Demo-customer-churn-pipeline", demoPipeline)]
        "Demo-customer-churn-pipeline" demoPipeline)
      "Demo-customer-churn-pipeline" demoPipeline
      = upsert [("Demo-customer-churn-pipeline", demoPipeline)]
          "Demo-customer-churn-pipeline" demoPipeline ∧
    lookupDef (upsert [("Demo-customer-churn-pipeline", demoPipeline)]
        "Demo-customer-churn-pipeline" demoPipeline) "Demo-customer-churn-pipeline"
      = some demoPipeline ∧
    countName (upsert [("Demo-customer-churn-pipeline", demoPipeline)]
        "Demo-customer-churn-pipeline" demoPipeline) "Demo-customer-churn-pipeline" = 1 :=
  ⟨(upsert_idempotent [("Demo-customer-churn-pipeline", demoPipeline)]
      "Demo-customer-churn-pipeline" demoPipeline).1,
   (upsert_idempotent [("Demo-customer-churn-pipeline", demoPipeline)]
      "Demo-customer-churn-pipeline" demoPipeline).2.1,
   (upsert_idempotent [("Demo-customer-churn-pipeline", demoPipeline)]
      "Demo-customer-churn-pipeline" demoPipeline).2.2 (by decide)⟩

/-- C8: starting the demo pipeline with a `ModelApprovalStatus` override
outside the declared allowed set `{PendingManualApproval, Approved}` fails
validation before submission; overrides inside the set, and starting with no
overrides at all, succeed. -/
theorem out_of_enum_override_rejected (v : String) :
    (v ∉ ["PendingManualApproval", "Approved"] →
      startPipeline demoPipeline [("ModelApprovalStatus", ParamValue.strVal v)] = none) ∧
    (startPipeline demoPipeline
      [("ModelApprovalStatus", ParamValue.strVal "Approved")]).isSome = true ∧
    (startPipeline demoPipeline
      [("ModelApprovalStatus", ParamValue.strVal "PendingManualApproval")]).isSome = true ∧
    (startPipeline demoPipeline []).isSome = true := by
  refine ⟨?_, by decide, by decide, by decide⟩
  intro hv
  have hov : validateOverrides demoPipeline.parameters
      [("ModelApprovalStatus", ParamValue.strVal v)] = false := by
    simp [validateOverrides, demoPipeline, demoParameters, valueMatches]
    simpa using hv
  simp [startPipeline, hov]

/-- Witness for C8: the out-of-enum override `Rejected` is refused while the
default start succeeds. -/
theorem out_of_enum_override_rejected_witness :
    startPipeline demoPipeline
      [("ModelApprovalStatus", ParamValue.strVal "Rejected")] = none ∧
    (startPipeline demoPipeline []).isSome = true :=
  ⟨(out_of_enum_override_rejected "Rejected").1 (by decide),
   (out_of_enum_override_rejected "Rejected").2.2.2⟩
